import Mathlib

/-!
Verification development for the m3u8dl playlist mirroring tool.

The Go sources are shallowly embedded: strings are modelled as Lean `String`
values manipulated through their character lists (the repository's inputs are
ASCII, where Go's byte indexing and character indexing coincide), Go maps are
modelled as association lists where a prepended binding shadows older ones
(exactly Go's assignment semantics under `List.lookup`), the shared mutable
`FileSystem` is threaded as explicit state, and panics are modelled as `none`
in an `Option` layer.  Functions from the Go standard library (`strings`,
`path`, `path/filepath` on Linux, `net/url`) are modelled for the input
classes the repository exercises; each model notes its scope.
-/

namespace M3U8

/-! ## Character-list string primitives -/

/-- Whitespace recognised by `strings.TrimSpace` (ASCII subset of Unicode space). -/
def isGoSpace (c : Char) : Bool :=
  c == ' ' || c == '\t' || c == '\n' || c == '\r' || c == '\x0b' || c == '\x0c'

def trimLeftL : List Char → List Char
  | [] => []
  | c :: cs => if isGoSpace c then trimLeftL cs else c :: cs

/-- Models Go strings.TrimSpace. -/
def trimSpace (s : String) : String :=
  String.mk (trimLeftL ((trimLeftL s.data.reverse).reverse))

def isPrefixL : List Char → List Char → Bool
  | [], _ => true
  | _ :: _, [] => false
  | p :: ps, c :: cs => p == c && isPrefixL ps cs

/-- Models Go strings.HasPrefix. -/
def goStartsWith (s pre : String) : Bool := isPrefixL pre.data s.data

/-- Models Go strings.HasSuffix. -/
def goEndsWith (s suf : String) : Bool := isPrefixL suf.data.reverse s.data.reverse

/-- Index of the first occurrence of `sub` in `l`, as Go strings.Index
(which returns -1 for no occurrence, modelled by `none`). -/
def idxOfSubL (sub : List Char) : List Char → Option Nat
  | [] => if sub = [] then some 0 else none
  | c :: cs => if isPrefixL sub (c :: cs) then some 0 else (idxOfSubL sub cs).map (· + 1)

def goIndexSub (s sub : String) : Option Nat := idxOfSubL sub.data s.data

/-- Models Go strings.Contains. -/
def goContains (s sub : String) : Bool := (goIndexSub s sub).isSome

def idxOfCharL (l : List Char) (c : Char) : Option Nat := idxOfSubL [c] l

def splitCharL (c : Char) : List Char → List (List Char)
  | [] => [[]]
  | a :: as =>
    let r := splitCharL c as
    if a == c then [] :: r
    else
      match r with
      | [] => [[a]]
      | h :: t => (a :: h) :: t

/-- Models Go strings.Split with a one-character separator. -/
def goSplitChar (s : String) (c : Char) : List String :=
  (splitCharL c s.data).map String.mk

/-- Drops one trailing carriage return, as bufio.ScanLines does per line. -/
def stripCR (s : String) : String :=
  match s.data.reverse with
  | '\r' :: rest => String.mk rest.reverse
  | _ => s

/-- Models reading a string through bufio.Scanner with ScanLines: tokens are
separated by a newline, a final newline produces no extra empty token, and a
trailing carriage return is stripped from each token. -/
def goLines (s : String) : List String :=
  if s.data = [] then []
  else
    let parts := splitCharL '\n' s.data
    let parts := if s.data.getLast? = some '\n' then parts.dropLast else parts
    parts.map (fun l => stripCR (String.mk l))

def strTake (s : String) (n : Nat) : String := String.mk (s.data.take n)

def strDrop (s : String) (n : Nat) : String := String.mk (s.data.drop n)

def lowerChar (c : Char) : Char :=
  if decide ('A' ≤ c) && decide (c ≤ 'Z') then Char.ofNat (c.toNat + 32) else c

/-- Models Go strings.ToLower on ASCII input. -/
def goToLower (s : String) : String := String.mk (s.data.map lowerChar)

/-- Models Go strings.TrimPrefix. -/
def goTrimPfx (s pre : String) : String :=
  if goStartsWith s pre then strDrop s pre.data.length else s

/-- Models Go strings.TrimSuffix. -/
def goTrimSfx (s suf : String) : String :=
  if goEndsWith s suf then strTake s (s.data.length - suf.data.length) else s

def joinSlash : List String → String
  | [] => ""
  | [s] => s
  | s :: rest => s ++ "/" ++ joinSlash rest

/-! ## Go path and path/filepath models (Linux, forward-slash separators;
filepath.FromSlash and filepath.ToSlash are the identity there) -/

def cleanStep (abs : Bool) (stack : List String) (seg : String) : List String :=
  if seg = "" ∨ seg = "." then stack
  else if seg = ".." then
    if abs then stack.dropLast
    else
      match stack.getLast? with
      | some l => if l = ".." then stack ++ [".."] else stack.dropLast
      | none => [".."]
  else stack ++ [seg]

/-- Models Go path.Clean (and filepath.Clean on Linux): the lexical
dot-segment elimination algorithm. -/
def pathClean (p : String) : String :=
  if p = "" then "."
  else
    let abs := goStartsWith p "/"
    let out := (goSplitChar p '/').foldl (cleanStep abs) []
    if abs then "/" ++ joinSlash out
    else if out = [] then "." else joinSlash out

/-- Models Go path.Join (and filepath.Join on Linux) on two elements. -/
def pathJoin2 (a b : String) : String :=
  if a = "" ∧ b = "" then ""
  else if a = "" then pathClean b
  else if b = "" then pathClean a
  else pathClean (a ++ "/" ++ b)

def lastSlashIdx (s : String) : Option Nat :=
  (idxOfCharL s.data.reverse '/').map (fun i => s.data.length - 1 - i)

/-- Models Go path.Dir (and filepath.Dir on Linux): everything up to the
final separator, cleaned. -/
def pathDir (p : String) : String :=
  match lastSlashIdx p with
  | none => pathClean ""
  | some i => pathClean (strTake p (i + 1))

/-- Models Go path.Base. -/
def pathBase (p : String) : String :=
  if p = "" then "."
  else
    let l := (p.data.reverse.dropWhile (fun c => c == '/')).reverse
    if l = [] then "/"
    else String.mk ((l.reverse.takeWhile (fun c => c != '/')).reverse)

def extAuxL : List Char → List Char → Option (List Char)
  | [], _ => none
  | c :: rest, acc =>
    if c == '/' then none
    else if c == '.' then some ('.' :: acc)
    else extAuxL rest (c :: acc)

/-- Models Go filepath.Ext: the suffix from the final dot of the final
path element, or the empty string. -/
def filepathExt (p : String) : String :=
  match extAuxL p.data.reverse [] with
  | none => ""
  | some l => String.mk l

def segsOfClean (p : String) : List String :=
  if p = "." then [] else (goSplitChar p '/').filter (fun s => s ≠ "")

def dropCommonPfx : List String → List String → List String × List String
  | [], t => ([], t)
  | b :: bs, [] => (b :: bs, [])
  | b :: bs, t :: ts => if b = t then dropCommonPfx bs ts else (b :: bs, t :: ts)

/-- Models Go filepath.Rel on Linux: both paths are cleaned, they must agree
on absoluteness, and after dropping the common segment prefix the remaining
base segments must not begin with a parent reference (Go returns the
"can't make relative" error there); otherwise the result climbs out of the
remaining base segments and descends into the remaining target segments. -/
def filepathRel (basepath targpath : String) : Except String String :=
  let base := pathClean basepath
  let targ := pathClean targpath
  if targ = base then .ok "."
  else if (goStartsWith base "/") != (goStartsWith targ "/") then
    .error ("Rel: cannot make " ++ targpath ++ " relative to " ++ basepath)
  else
    let rems := dropCommonPfx (segsOfClean base) (segsOfClean targ)
    match rems.1 with
    | ".." :: _ => .error ("Rel: cannot make " ++ targpath ++ " relative to " ++ basepath)
    | _ =>
      let parts := List.replicate rems.1.length ".." ++ rems.2
      if parts = [] then .ok "." else .ok (joinSlash parts)

/-! ## net/url model

A `GoURL` mirrors the fields of Go's url.URL used by the repository
(Scheme, Opaque, Host, Path, RawQuery; `opq` names the Opaque field, no
userinfo or fragment appears in any input).  `parseGoURL` models url.Parse
for the repository's input classes: parsing fails on a control character,
on a leading colon (Go's "missing protocol scheme") and on a space in a
host; percent-escaping is not modelled (all modelled inputs are unescaped
ASCII, where Go's EscapedPath is the identity). -/

structure GoURL where
  scheme : String
  opq : String
  host : String
  path : String
  rawQuery : String
deriving DecidableEq, Repr

def isCtlChar (c : Char) : Bool := c.toNat < 32 || c.toNat == 127

def isAlphaChar (c : Char) : Bool :=
  (decide ('a' ≤ c) && decide (c ≤ 'z')) || (decide ('A' ≤ c) && decide (c ≤ 'Z'))

def isDigitChar (c : Char) : Bool := decide ('0' ≤ c) && decide (c ≤ '9')

inductive SchemeRes where
  | fail : SchemeRes
  | noScheme : SchemeRes
  | found : List Char → List Char → SchemeRes

/-- Models net/url getScheme: scans for a colon ending a run of scheme
characters; a digit, plus, minus or dot cannot start the run, a colon at
position zero is Go's "missing protocol scheme" error, any other character
means the text has no scheme and is all path. -/
def getSchemeAux (acc : List Char) : List Char → SchemeRes
  | [] => .noScheme
  | c :: rest =>
    if isAlphaChar c then getSchemeAux (acc ++ [c]) rest
    else if isDigitChar c || c == '+' || c == '-' || c == '.' then
      if acc = [] then .noScheme else getSchemeAux (acc ++ [c]) rest
    else if c == ':' then
      if acc = [] then .fail else .found acc rest
    else .noScheme

def validHost (h : List Char) : Bool := h.all (fun c => c != ' ')

/-- Parses the part after a double slash: host up to the first slash or
question mark, then path up to the question mark, then the raw query. -/
def parseAuthority (l : List Char) : Option (String × String × String) :=
  let hostPart := l.takeWhile (fun c => c != '/' && c != '?')
  let rest := l.drop hostPart.length
  if validHost hostPart then
    let p := rest.takeWhile (fun c => c != '?')
    let q := rest.drop (p.length + 1)
    some (String.mk hostPart, String.mk p, String.mk q)
  else none

/-- Models url.Parse (see the section comment for scope). -/
def parseGoURL (s : String) : Option GoURL :=
  if s.data.any isCtlChar then none
  else
    match getSchemeAux [] s.data with
    | .fail => none
    | .noScheme =>
      if isPrefixL ['/', '/'] s.data then
        match parseAuthority (s.data.drop 2) with
        | none => none
        | some (h, p, q) => some ⟨"", "", h, p, q⟩
      else
        let p := s.data.takeWhile (fun c => c != '?')
        let q := s.data.drop (p.length + 1)
        some ⟨"", "", "", String.mk p, String.mk q⟩
    | .found sch rest =>
      if isPrefixL ['/', '/'] rest then
        match parseAuthority (rest.drop 2) with
        | none => none
        | some (h, p, q) => some ⟨goToLower (String.mk sch), "", h, p, q⟩
      else if isPrefixL ['/'] rest then
        let p := rest.takeWhile (fun c => c != '?')
        let q := rest.drop (p.length + 1)
        some ⟨goToLower (String.mk sch), "", "", String.mk p, String.mk q⟩
      else
        let op := rest.takeWhile (fun c => c != '?')
        let q := rest.drop (op.length + 1)
        some ⟨goToLower (String.mk sch), String.mk op, "", "", String.mk q⟩

/-- Models url.URL.String for unescaped ASCII components. -/
def urlString (u : GoURL) : String :=
  let pre := if u.scheme ≠ "" then u.scheme ++ ":" else ""
  let q := if u.rawQuery ≠ "" then "?" ++ u.rawQuery else ""
  if u.opq ≠ "" then pre ++ u.opq ++ q
  else
    let auth :=
      if (u.scheme ≠ "" ∨ u.host ≠ "") ∧ (u.host ≠ "" ∨ u.path ≠ "") then "//" ++ u.host
      else ""
    let slash :=
      if u.path ≠ "" ∧ goStartsWith u.path "/" = false ∧ u.host ≠ "" then "/" else ""
    pre ++ auth ++ slash ++ u.path ++ q

def remDotSegs : List String → List String → List String
  | [], stack => stack
  | "." :: rest, stack => remDotSegs rest stack
  | ".." :: rest, stack => remDotSegs rest stack.dropLast
  | s :: rest, stack => remDotSegs rest (stack ++ [s])

/-- Models net/url resolvePath: merge the reference path with the base
path's directory part, then eliminate dot segments; the result always
begins with a slash.  Interior empty segments are not modelled (no input
has them). -/
def resolvePathGo (base ref : String) : String :=
  let full :=
    if ref = "" then base
    else if goStartsWith ref "/" then ref
    else
      match lastSlashIdx base with
      | none => ref
      | some i => strTake base (i + 1) ++ ref
  if full = "" then ""
  else
    let segsAll := goSplitChar full '/'
    let out := remDotSegs (segsAll.filter (fun s => s ≠ "")) []
    let core := "/" ++ joinSlash out
    if segsAll.getLast? = some "." ∨ segsAll.getLast? = some ".." ∨ segsAll.getLast? = some ""
    then core ++ "/" else core

/-- Models url.URL.ResolveReference for references without fragments. -/
def resolveReference (base ref : GoURL) : GoURL :=
  let scheme := if ref.scheme = "" then base.scheme else ref.scheme
  if ref.scheme ≠ "" ∨ ref.host ≠ "" then
    ⟨scheme, ref.opq, ref.host, resolvePathGo ref.path "", ref.rawQuery⟩
  else if ref.opq ≠ "" then
    ⟨scheme, ref.opq, "", "", ref.rawQuery⟩
  else
    let q := if ref.path = "" ∧ ref.rawQuery = "" then base.rawQuery else ref.rawQuery
    ⟨scheme, "", base.host, resolvePathGo base.path ref.path, q⟩

/-! ## Playlist parser (internal/downloader/m3u8.go: ParseM3U8, containsURL,
extractURLsFromTag, resolveURL, resolveRelativePath) -/

def urlTags : List String :=
  ["EXT-X-KEY", "EXT-X-MEDIA", "EXT-X-MAP", "EXT-X-I-FRAME-STREAM-INF"]

/-- Embeds containsURL: whether a tag line contains one of the URL tags. -/
def containsURL (line : String) : Bool := urlTags.any (fun t => goContains line t)

def uriMark : String := "URI=\""

/-- The loop of extractURLsFromTag, with fuel for the strictly shrinking
remainder (the caller passes more fuel than the line's length, which the
loop can never exhaust since each round consumes the URI marker). -/
def extractURIsL : Nat → List Char → List (List Char)
  | 0, _ => []
  | fuel + 1, l =>
    match idxOfSubL uriMark.data l with
    | none => []
    | some i =>
      let rest := l.drop (i + 5)
      match idxOfCharL rest '"' with
      | none => []
      | some j => rest.take j :: extractURIsL fuel (rest.drop (j + 1))

/-- Embeds extractURLsFromTag: every quoted URI attribute value of a line. -/
def extractURLsFromTag (line : String) : List String :=
  (extractURIsL (line.data.length + 1) line.data).map String.mk

/-- Embeds resolveRelativePath: directory of the base path joined with the
reference, rebuilt into a URL string with the base scheme and host. -/
def resolveRelativePath (base : GoURL) (relativePath : String) : String :=
  let basePath := pathDir base.path
  let resolved := pathJoin2 basePath relativePath
  urlString ⟨base.scheme, "", base.host, resolved, ""⟩

/-- Embeds resolveURL: absolute references pass through unchanged, parseable
relative references resolve against the base, unparseable references are
treated as literal relative paths. -/
def resolveURL (base : GoURL) (ref : String) : String :=
  match parseGoURL ref with
  | none => resolveRelativePath base ref
  | some refURL =>
    if refURL.scheme ≠ "" then ref
    else urlString (resolveReference base refURL)

/-- The parsed playlist: the ordered reference list and the IsM3U8 map,
modelled as an association list where a prepended binding shadows older
ones (Go map assignment). -/
structure M3U8Doc where
  urls : List String
  isM3U8 : List (String × Bool)
deriving DecidableEq, Repr

/-- One iteration of the ParseM3U8 scanning loop on a raw line. -/
def parseLine (base : GoURL) (st : M3U8Doc) (raw : String) : M3U8Doc :=
  let line := trimSpace raw
  if line = "" ∨ (goStartsWith line "#" = true ∧ containsURL line = false) then st
  else if goStartsWith line "#" then
    (extractURLsFromTag line).foldl
      (fun s u =>
        let resolved := resolveURL base u
        { urls := s.urls ++ [resolved],
          isM3U8 :=
            if goEndsWith u ".m3u8" = false then (resolved, false) :: s.isM3U8
            else s.isM3U8 })
      st
  else
    let resolved := resolveURL base line
    { urls := st.urls ++ [resolved],
      isM3U8 :=
        (resolved, goEndsWith line ".m3u8" || goContains line ".m3u8?") :: st.isM3U8 }

/-- Embeds ParseM3U8.  The only failure of the Go function is an I/O error of
the scanner, which a string input cannot produce, so the model is total. -/
def parseM3U8 (content : String) (base : GoURL) : M3U8Doc :=
  (goLines content).foldl (parseLine base) ⟨[], []⟩

/-! ## Path mapper (internal/filesystem/filesystem.go) -/

def hexDigit (n : Nat) : Char :=
  if n < 10 then Char.ofNat (48 + n) else Char.ofNat (87 + n)

def hexChars : Nat → Nat → List Char
  | 0, _ => []
  | k + 1, n => hexChars k (n / 16) ++ [hexDigit (n % 16)]

/-- Models generateHashFromURL (the hex digest of crypto/sha256 over the URL
string): a deterministic 64-hex-character digest.  The digest function stands
in for SHA-256; no theorem depends on particular digest values, only on the
digest being a fixed function of the URL. -/
def generateHashFromURL (urlStr : String) : String :=
  String.mk (hexChars 64 (urlStr.data.foldl (fun a c => (a * 131 + c.toNat) % 2 ^ 256) 1))

/-- Embeds generateFilenameFromURL. -/
def generateFilenameFromURL (urlStr : String) : String :=
  strTake (generateHashFromURL urlStr) 16 ++ ".bin"

/-- The FileSystem state: output directory, layout flag, and the two
mutex-guarded maps (URL to path cache, paths in use), modelled as lists.
The mutex serialises calls, so the model is sequential state passing. -/
structure FileSystem where
  outputDir : String
  flatten : Bool
  urlToPath : List (String × String)
  pathsInUse : List String
deriving DecidableEq, Repr

/-- Embeds filesystem.New. -/
def mkFileSystem (outputDir : String) (flatten : Bool) : FileSystem :=
  ⟨outputDir, flatten, [], []⟩

/-- The candidate name format of the resolveConflict loop:
base, underscore, eight hash characters, underscore, decimal counter, ext. -/
def conflictName (base h8 ext : String) (counter : Nat) : String :=
  base ++ "_" ++ h8 ++ "_" ++ Nat.repr counter ++ ext

/-- The resolveConflict counter loop.  Go loops until a free name appears;
the model carries fuel, and `conflictLoop_not_mem` with the pigeonhole
adequacy lemma shows the fuel passed by `resolveConflict` always suffices. -/
def conflictLoop (paths : List String) (base h8 ext : String) : Nat → Nat → String
  | 0, counter => conflictName base h8 ext counter
  | fuel + 1, counter =>
    let cand := conflictName base h8 ext counter
    if cand ∈ paths then conflictLoop paths base h8 ext fuel (counter + 1)
    else cand

/-- Embeds FileSystem.resolveConflict. -/
def resolveConflict (paths : List String) (originalPath urlStr : String) : String :=
  let ext := filepathExt originalPath
  let base := goTrimSfx originalPath ext
  let h8 := strTake (generateHashFromURL urlStr) 8
  let newPath := base ++ "_" ++ h8 ++ ext
  if newPath ∈ paths then conflictLoop paths base h8 ext (paths.length + 1) 1
  else newPath

/-- Embeds FileSystem.GetLocalPath, threading the mutated state. -/
def getLocalPath (fs : FileSystem) (urlStr : String) : Except String String × FileSystem :=
  match fs.urlToPath.lookup urlStr with
  | some p => (.ok p, fs)
  | none =>
    match parseGoURL urlStr with
    | none => (.error ("failed to parse URL " ++ urlStr), fs)
    | some u =>
      let localPath :=
        if fs.flatten then
          let filename := pathBase u.path
          let filename :=
            if filename = "" ∨ filename = "." ∨ filename = "/" then
              generateFilenameFromURL urlStr
            else filename
          let lp := pathJoin2 fs.outputDir filename
          if lp ∈ fs.pathsInUse then resolveConflict fs.pathsInUse lp urlStr
          else lp
        else
          pathJoin2 fs.outputDir (goTrimPfx u.path "/")
      (.ok localPath,
       { fs with
         urlToPath := (urlStr, localPath) :: fs.urlToPath,
         pathsInUse := localPath :: fs.pathsInUse })

/-- Embeds FileSystem.GetRelativePath (filepath.ToSlash is the identity on
Linux).  Both GetLocalPath calls mutate the state, also when the relative
path computation then fails. -/
def getRelativePath (fs : FileSystem) (fromURL toURL : String) :
    Except String String × FileSystem :=
  match getLocalPath fs fromURL with
  | (.error e, fs1) => (.error e, fs1)
  | (.ok fromPath, fs1) =>
    match getLocalPath fs1 toURL with
    | (.error e, fs2) => (.error e, fs2)
    | (.ok toPath, fs2) =>
      match filepathRel (pathDir fromPath) toPath with
      | .error e => (.error ("failed to calculate relative path: " ++ e), fs2)
      | .ok rel => (.ok rel, fs2)

/-! ## Rewriter (internal/downloader/rewriter.go)

mustParseURL panics on an unparseable URL; the whole rewriter model
therefore lives in `Option`, where `none` is a panic (distinct from the
`Except.error` results of the path mapper, which the rewriter swallows
line-locally). -/

/-- Embeds containsURI. -/
def containsURI (line : String) : Bool := goContains line uriMark

/-- The loop of rewriteTagLine.  Fuel again covers the strictly shrinking
remainder; one round either returns, panics (`none`, via mustParseURL), or
— on a GetRelativePath error — continues on the truncated suffix of the
line starting at the closing quote, exactly as the Go code does. -/
def rewriteTagLoop (src : String) : Nat → FileSystem → List Char →
    Option (List Char × FileSystem)
  | 0, fs, result => some (result, fs)
  | fuel + 1, fs, result =>
    match idxOfSubL uriMark.data result with
    | none => some (result, fs)
    | some uriStart =>
      let uriValueStart := uriStart + 5
      let rest := result.drop uriValueStart
      match idxOfCharL rest '"' with
      | none => some (result, fs)
      | some uriEnd =>
        let value := String.mk (rest.take uriEnd)
        match parseGoURL src with
        | none => none
        | some base =>
          let absoluteURL := resolveURL base value
          match getRelativePath fs src absoluteURL with
          | (.error _, fs1) => rewriteTagLoop src fuel fs1 (result.drop (uriValueStart + uriEnd))
          | (.ok rel, fs1) =>
            some (result.take uriValueStart ++ rel.data ++ result.drop (uriValueStart + uriEnd),
                  fs1)

/-- Embeds rewriteTagLine (whose Go error result is always nil: the
returned text is whatever the loop left in `result`). -/
def rewriteTagLine (fs : FileSystem) (line src : String) : Option (String × FileSystem) :=
  (rewriteTagLoop src (line.data.length + 1) fs line.data).map
    (fun r => (String.mk r.1, r.2))

/-- Embeds rewriteSegmentLine: parse the source URL (panic if unparseable),
resolve the line against it, and replace the line by the relative path,
keeping the original line when the relative path computation fails.
ParseM3U8 on empty content never fails, so its error branch is dead. -/
def rewriteSegmentLine (fs : FileSystem) (line src : String) : Option (String × FileSystem) :=
  match parseGoURL src with
  | none => none
  | some base =>
    let absoluteURL := resolveURL base line
    match getRelativePath fs src absoluteURL with
    | (.error _, fs1) => some (line, fs1)
    | (.ok rel, fs1) => some (rel, fs1)

/-- The per-line dispatch of the RewriteM3U8URLs loop. -/
def rewriteLineStep (src : String) (fs : FileSystem) (line : String) :
    Option (String × FileSystem) :=
  if goStartsWith line "#" then
    if containsURI line then rewriteTagLine fs line src
    else some (line, fs)
  else if line ≠ "" then rewriteSegmentLine fs line src
  else some (line, fs)

/-- The RewriteM3U8URLs loop over the scanned lines, collecting one output
line per input line. -/
def rewriteLinesGo (src : String) : FileSystem → List String →
    Option (List String × FileSystem)
  | fs, [] => some ([], fs)
  | fs, line :: rest =>
    match rewriteLineStep src fs line with
    | none => none
    | some (l1, fs1) =>
      match rewriteLinesGo src fs1 rest with
      | none => none
      | some (ls, fs2) => some (l1 :: ls, fs2)

/-- Embeds RewriteM3U8URLs: each output line is written followed by a
newline.  As with ParseM3U8, the scanner error return needs an I/O failure
a string input cannot produce, so the model returns the bytes (or a panic). -/
def rewriteM3U8URLs (content src : String) (fs : FileSystem) :
    Option (String × FileSystem) :=
  (rewriteLinesGo src fs (goLines content)).map
    (fun r => (String.join (r.1.map (fun l => l ++ "\n")), r.2))

/-! ## Crawl orchestrator filter (internal/downloader/m3u8.go:
filterURLs, shouldDownload) -/

/-- The include and exclude extension lists of the Downloader. -/
structure DlConfig where
  includeExts : List String
  excludeExts : List String
deriving DecidableEq, Repr

/-- The extension-matching loop shared by the exclude and include checks:
the candidate matches a list entry directly or with a leading dot added. -/
def matchExtLoop (ext : String) : List String → Bool
  | [] => false
  | e :: rest => if ext = e ∨ ext = "." ++ e then true else matchExtLoop ext rest

/-- The extension shouldDownload filters on: filepath.Ext of the URL string,
lowercased, with any query-string remainder stripped. -/
def extOfURL (urlStr : String) : String :=
  let ext0 := goToLower (filepathExt urlStr)
  match goIndexSub ext0 "?" with
  | some i => strTake ext0 i
  | none => ext0

/-- Embeds shouldDownload: the normalized extension is checked against the
exclude list first, then the include list (empty include accepts everything).
The URL is never consulted in any other way — in particular the
nested-playlist classification plays no part. -/
def shouldDownload (cfg : DlConfig) (urlStr : String) : Bool :=
  if matchExtLoop (extOfURL urlStr) cfg.excludeExts then false
  else if cfg.includeExts = [] then true
  else matchExtLoop (extOfURL urlStr) cfg.includeExts

/-- Embeds filterURLs. -/
def filterURLs (cfg : DlConfig) (urls : List String) : List String :=
  urls.filter (fun u => shouldDownload cfg u)

/-! ## Visited-set concurrency model (internal/downloader/m3u8.go:
downloadURL, isVisited, markVisited)

Each constructor of `FetchStep` is one atomic section of downloadURL on a
non-playlist URL, at exactly the granularity the Go code locks:
`check` is one isVisited call (one visitedLock acquisition around the map
read; a worker whose check sees the URL visited returns at once), `mark`
one markVisited call (one acquisition around the map write), `fetch` the
Fetcher invocation (no lock held).  A schedule interleaves the atomic
sections of the workers; no step splits a lock-protected section. -/

inductive FetchStep where
  | check : FetchStep
  | mark : FetchStep
  | fetch : FetchStep
deriving DecidableEq, Repr

structure Worker where
  url : String
  prog : List FetchStep
deriving DecidableEq, Repr

/-- The atomic sections of downloadURL for a non-playlist URL, in program
order: the isVisited check, then markVisited, then the fetch. -/
def downloadURLProg : List FetchStep := [.check, .mark, .fetch]

structure CrawlState where
  workers : List Worker
  visited : List String
  fetched : List String
deriving DecidableEq, Repr

/-- Executes the next atomic section of worker `i`. -/
def stepWorker (st : CrawlState) (i : Nat) : CrawlState :=
  match st.workers.get? i with
  | none => st
  | some w =>
    match w.prog with
    | [] => st
    | s :: rest =>
      match s with
      | .check =>
        if w.url ∈ st.visited then
          { st with workers := st.workers.set i { w with prog := [] } }
        else
          { st with workers := st.workers.set i { w with prog := rest } }
      | .mark =>
        { st with
          workers := st.workers.set i { w with prog := rest },
          visited := w.url :: st.visited }
      | .fetch =>
        { st with
          workers := st.workers.set i { w with prog := rest },
          fetched := w.url :: st.fetched }

/-- Runs a schedule: a list of worker indices, each executing one atomic
section in turn. -/
def runSched (st : CrawlState) : List Nat → CrawlState
  | [] => st
  | i :: rest => runSched (stepWorker st i) rest

deriving instance DecidableEq for Except

/-- A sequence of GetLocalPath calls (the crawl makes one per URL it
touches), keeping only the final mapper state. -/
def runCalls (fs : FileSystem) (calls : List String) : FileSystem :=
  calls.foldl (fun f u => (getLocalPath f u).2) fs

/-- The invariant of the flattened-mode mapper: every cached path is
recorded in use, and no two cache entries share a path. -/
def MapperInv (fs : FileSystem) : Prop :=
  (∀ e ∈ fs.urlToPath, e.2 ∈ fs.pathsInUse) ∧ (fs.urlToPath.map Prod.snd).Nodup

/-- Whether a line holds a complete quoted URI attribute: the URI marker
with a closing quote somewhere after it (exactly the case in which the
rewriter reaches mustParseURL). -/
def hasCompleteURI (l : String) : Bool :=
  match goIndexSub l uriMark with
  | none => false
  | some i => (idxOfCharL (l.data.drop (i + 5)) '"').isSome

/-- Whether a line makes the rewriter call mustParseURL: a bare reference
line, or a tag line with a complete quoted URI attribute. -/
def panicTrigger (l : String) : Bool :=
  (!goStartsWith l "#" && l != "") || (goStartsWith l "#" && hasCompleteURI l)


def digitVal (c : Char) : Nat := c.toNat - 48

/-! ## Uniqueness of decimal representations

`resolveConflict` distinguishes its counter candidates only through
`Nat.repr`, so the pigeonhole argument below needs that distinct counters
give distinct strings.  The proof reads the digit list back into the number
it denotes. -/

theorem strData_append (s t : String) : (s ++ t).data = s.data ++ t.data := rfl

/-- The accumulator of `Nat.toDigitsCore` is only ever appended to. -/
theorem toDigitsCore_acc_split (fuel n : Nat) (ds : List Char) :
    Nat.toDigitsCore 10 fuel n ds = Nat.toDigitsCore 10 fuel n [] ++ ds := by
  induction fuel generalizing n ds with
  | zero => simp [Nat.toDigitsCore]
  | succ fuel ih =>
    rw [Nat.toDigitsCore]
    rw [show Nat.toDigitsCore 10 (fuel + 1) n [] =
          if n / 10 = 0 then [Nat.digitChar (n % 10)]
          else Nat.toDigitsCore 10 fuel (n / 10) [Nat.digitChar (n % 10)] from rfl]
    by_cases h10 : n / 10 = 0
    · simp [h10]
    · simp only [h10, if_false]
      rw [ih (n / 10) (Nat.digitChar (n % 10) :: ds), ih (n / 10) [Nat.digitChar (n % 10)]]
      simp

/-- With fuel above the number, the fuel does not matter. -/
theorem toDigitsCore_fuel_free (n : Nat) : ∀ f₁ f₂ : Nat, n < f₁ → n < f₂ →
    Nat.toDigitsCore 10 f₁ n [] = Nat.toDigitsCore 10 f₂ n [] := by
  induction n using Nat.strong_induction_on with
  | _ n ih =>
    intro f₁ f₂ h₁ h₂
    match f₁, f₂ with
    | g₁ + 1, g₂ + 1 =>
      rw [Nat.toDigitsCore, Nat.toDigitsCore]
      by_cases h10 : n / 10 = 0
      · simp [h10]
      · simp only [h10, if_false]
        have hlt : n / 10 < n := Nat.div_lt_self (Nat.pos_of_ne_zero (fun h => h10 (by simp [h]))) (by omega)
        rw [toDigitsCore_acc_split g₁, toDigitsCore_acc_split g₂,
            ih (n / 10) hlt g₁ g₂ (by omega) (by omega)]

theorem digitVal_digitChar {n : Nat} (h : n < 10) : digitVal (Nat.digitChar n) = n := by
  interval_cases n <;> decide

/-- Folding the digit characters back recovers the number. -/
theorem toDigitsCore_readback (n : Nat) : ∀ fuel, n < fuel →
    List.foldl (fun a c => a * 10 + digitVal c) 0 (Nat.toDigitsCore 10 fuel n []) = n := by
  induction n using Nat.strong_induction_on with
  | _ n ih =>
    intro fuel hf
    match fuel with
    | g + 1 =>
      rw [Nat.toDigitsCore]
      by_cases h10 : n / 10 = 0
      · have hn : n < 10 := by omega
        simp [h10, List.foldl, digitVal_digitChar (Nat.mod_lt n (by omega) : n % 10 < 10)]
        omega
      · simp only [h10, if_false]
        have hpos : 0 < n := Nat.pos_of_ne_zero (fun h => h10 (by simp [h]))
        have hlt : n / 10 < n := Nat.div_lt_self hpos (by omega)
        rw [toDigitsCore_acc_split, List.foldl_append,
            toDigitsCore_fuel_free (n / 10) g (n / 10 + 1) (by omega) (by omega),
            ih (n / 10) hlt (n / 10 + 1) (by omega)]
        simp [List.foldl, digitVal_digitChar (Nat.mod_lt n (by omega) : n % 10 < 10)]
        omega

/-- Decimal `Nat.repr` is injective. -/
theorem natRepr_inj {a b : Nat} (h : Nat.repr a = Nat.repr b) : a = b := by
  have hd : Nat.toDigits 10 a = Nat.toDigits 10 b := congrArg String.data h
  have ha := toDigitsCore_readback a (a + 1) (by omega)
  have hb := toDigitsCore_readback b (b + 1) (by omega)
  rw [Nat.toDigits] at hd
  rw [Nat.toDigits] at hd
  rw [hd] at ha
  omega

/-! ## Freshness of resolveConflict -/

theorem conflictName_inj (base h8 ext : String) {c₁ c₂ : Nat}
    (h : conflictName base h8 ext c₁ = conflictName base h8 ext c₂) : c₁ = c₂ := by
  unfold conflictName at h
  have hd := congrArg String.data h
  simp only [strData_append] at hd
  have hr : (Nat.repr c₁).data = (Nat.repr c₂).data :=
    List.append_cancel_left (List.append_cancel_right hd)
  exact natRepr_inj (congrArg String.mk hr : Nat.repr c₁ = Nat.repr c₂)

/-- Pigeonhole: among any `paths.length + 1` consecutive counter candidates
one is free. -/
theorem conflict_candidate_free (paths : List String) (base h8 ext : String) (start : Nat) :
    ∃ k, k ≤ paths.length ∧ conflictName base h8 ext (start + k) ∉ paths := by
  by_contra hall
  push_neg at hall
  have hsub : (Finset.range (paths.length + 1)).image
      (fun k => conflictName base h8 ext (start + k)) ⊆ paths.toFinset := by
    intro x hx
    rw [Finset.mem_image] at hx
    obtain ⟨k, hk, rfl⟩ := hx
    rw [List.mem_toFinset]
    exact hall k (by simpa using Nat.lt_succ_iff.mp (Finset.mem_range.mp hk))
  have hinj : Set.InjOn (fun k => conflictName base h8 ext (start + k))
      (Finset.range (paths.length + 1)) := by
    intro k₁ _ k₂ _ hEq
    have := conflictName_inj base h8 ext hEq
    omega
  have hcard := Finset.card_le_card hsub
  rw [Finset.card_image_of_injOn hinj, Finset.card_range] at hcard
  have := paths.toFinset_card_le
  omega

theorem conflictLoop_free (paths : List String) (base h8 ext : String) :
    ∀ fuel start, (∃ k, k < fuel ∧ conflictName base h8 ext (start + k) ∉ paths) →
      conflictLoop paths base h8 ext fuel start ∉ paths := by
  intro fuel
  induction fuel with
  | zero =>
    intro start h
    obtain ⟨k, hk, _⟩ := h
    omega
  | succ fuel ih =>
    intro start h
    obtain ⟨k, hk, hfree⟩ := h
    rw [conflictLoop]
    by_cases hc : conflictName base h8 ext start ∈ paths
    · rw [if_pos hc]
      apply ih
      match k with
      | 0 => exact absurd hc (by simpa using hfree)
      | k + 1 =>
        refine ⟨k, by omega, ?_⟩
        have : start + 1 + k = start + (k + 1) := by omega
        rw [this]
        exact hfree
    · rw [if_neg hc]
      exact hc

/-- The path `resolveConflict` returns is never one already in use. -/
theorem resolveConflict_free (paths : List String) (orig url : String) :
    resolveConflict paths orig url ∉ paths := by
  unfold resolveConflict
  by_cases hc : goTrimSfx orig (filepathExt orig) ++ "_" ++
      strTake (generateHashFromURL url) 8 ++ filepathExt orig ∈ paths
  · rw [if_pos hc]
    apply conflictLoop_free
    obtain ⟨k, hk, hfree⟩ := conflict_candidate_free paths
      (goTrimSfx orig (filepathExt orig)) (strTake (generateHashFromURL url) 8)
      (filepathExt orig) 1
    exact ⟨k, by omega, hfree⟩
  · rw [if_neg hc]
    exact hc

/-! ## Path mapper invariants -/

theorem lookup_mem {l : List (String × String)} {u p : String}
    (h : l.lookup u = some p) : (u, p) ∈ l := by
  obtain ⟨l₁, l₂, rfl, _⟩ := List.lookup_eq_some_iff.mp h
  simp

/-- A cache hit returns the cached path and leaves the state alone. -/
theorem getLocalPath_cached {fs : FileSystem} {u p : String}
    (h : fs.urlToPath.lookup u = some p) : getLocalPath fs u = (.ok p, fs) := by
  unfold getLocalPath
  rw [h]

/-- An unparseable URL is rejected without touching the state. -/
theorem getLocalPath_err {fs : FileSystem} {u : String}
    (h1 : fs.urlToPath.lookup u = none) (h2 : parseGoURL u = none) :
    getLocalPath fs u = (.error ("failed to parse URL " ++ u), fs) := by
  unfold getLocalPath
  rw [h1, h2]

/-- A fresh parseable URL is assigned some path, which is prepended to both
maps. -/
theorem getLocalPath_state {fs : FileSystem} {u : String} {uu : GoURL}
    (h1 : fs.urlToPath.lookup u = none) (h2 : parseGoURL u = some uu) :
    ∃ L, getLocalPath fs u =
      (.ok L, ⟨fs.outputDir, fs.flatten, (u, L) :: fs.urlToPath, L :: fs.pathsInUse⟩) := by
  unfold getLocalPath
  rw [h1, h2]
  exact ⟨_, rfl⟩

/-- A successful call leaves the URL bound to the returned path. -/
theorem getLocalPath_ok_lookup {fs fs' : FileSystem} {u p : String}
    (h : getLocalPath fs u = (.ok p, fs')) : fs'.urlToPath.lookup u = some p := by
  cases h1 : fs.urlToPath.lookup u with
  | some q =>
    rw [getLocalPath_cached h1] at h
    injection h with h4 h5
    injection h4 with h6
    rw [← h5, h1, h6]
  | none =>
    cases h2 : parseGoURL u with
    | none =>
      rw [getLocalPath_err h1 h2] at h
      injection h with h4 h5
      exact absurd h4 (by simp)
    | some uu =>
      obtain ⟨L, hL⟩ := getLocalPath_state h1 h2
      rw [hL] at h
      injection h with h4 h5
      injection h4 with h6
      rw [← h5]
      rw [show (((u, L) :: fs.urlToPath).lookup u : Option String) = some L from
        List.lookup_cons_self]
      rw [h6]

/-- Mapper bindings persist across any later call. -/
theorem lookup_persists {fs : FileSystem} {u p : String} (v : String)
    (h : fs.urlToPath.lookup u = some p) :
    ((getLocalPath fs v).2).urlToPath.lookup u = some p := by
  cases h1 : fs.urlToPath.lookup v with
  | some q => rw [getLocalPath_cached h1]; exact h
  | none =>
    cases h2 : parseGoURL v with
    | none => rw [getLocalPath_err h1 h2]; exact h
    | some uu =>
      obtain ⟨L, hL⟩ := getLocalPath_state h1 h2
      rw [hL]
      have hne : u ≠ v := by
        intro he
        rw [he, h1] at h
        exact Option.noConfusion h
      show List.lookup u ((v, L) :: fs.urlToPath) = some p
      rw [List.lookup_cons]
      rw [show (u == v) = false from beq_eq_false_iff_ne.mpr hne]
      exact h

theorem runCalls_lookup_persists {u p : String} (calls : List String) :
    ∀ fs : FileSystem, fs.urlToPath.lookup u = some p →
      (runCalls fs calls).urlToPath.lookup u = some p := by
  induction calls with
  | nil => intro fs h; exact h
  | cons v rest ih =>
    intro fs h
    exact ih ((getLocalPath fs v).2) (lookup_persists v h)

/-- GetLocalPath never changes the configuration fields. -/
theorem getLocalPath_flatten (fs : FileSystem) (u : String) :
    ((getLocalPath fs u).2).flatten = fs.flatten := by
  cases h1 : fs.urlToPath.lookup u with
  | some q => rw [getLocalPath_cached h1]
  | none =>
    cases h2 : parseGoURL u with
    | none => rw [getLocalPath_err h1 h2]
    | some uu =>
      obtain ⟨L, hL⟩ := getLocalPath_state h1 h2
      rw [hL]

/-- In flattened mode a fresh call stores a path that was not yet in use. -/
theorem getLocalPath_fresh {fs : FileSystem} {u : String} {uu : GoURL}
    (hf : fs.flatten = true) (h1 : fs.urlToPath.lookup u = none)
    (h2 : parseGoURL u = some uu) :
    ∃ L, getLocalPath fs u =
        (.ok L, ⟨fs.outputDir, fs.flatten, (u, L) :: fs.urlToPath, L :: fs.pathsInUse⟩) ∧
      L ∉ fs.pathsInUse := by
  unfold getLocalPath
  rw [h1, h2, hf]
  simp only [if_true]
  by_cases hmem :
      pathJoin2 fs.outputDir
        (if pathBase uu.path = "" ∨ pathBase uu.path = "." ∨ pathBase uu.path = "/" then
          generateFilenameFromURL u
         else pathBase uu.path) ∈ fs.pathsInUse
  · rw [if_pos hmem]
    exact ⟨_, rfl, resolveConflict_free _ _ _⟩
  · rw [if_neg hmem]
    exact ⟨_, rfl, hmem⟩

theorem mapperInv_step {fs : FileSystem} (u : String) (hf : fs.flatten = true)
    (hinv : MapperInv fs) : MapperInv ((getLocalPath fs u).2) := by
  obtain ⟨hmem, hnodup⟩ := hinv
  cases h1 : fs.urlToPath.lookup u with
  | some q =>
    rw [getLocalPath_cached h1]
    exact ⟨hmem, hnodup⟩
  | none =>
    cases h2 : parseGoURL u with
    | none =>
      unfold getLocalPath
      rw [h1, h2]
      exact ⟨hmem, hnodup⟩
    | some uu =>
      obtain ⟨L, hL, hfree⟩ := getLocalPath_fresh hf h1 h2
      rw [hL]
      constructor
      · intro e he
        rcases List.mem_cons.mp he with rfl | hold
        · exact List.mem_cons_self _ _
        · exact List.mem_cons_of_mem _ (hmem e hold)
      · rw [List.map_cons, List.nodup_cons]
        refine ⟨fun hLmem => ?_, hnodup⟩
        obtain ⟨e, he, hEq⟩ := List.mem_map.mp hLmem
        apply hfree
        rw [show L = e.2 from hEq.symm]
        exact hmem e he

theorem mapperInv_runCalls (calls : List String) :
    ∀ fs : FileSystem, fs.flatten = true → MapperInv fs →
      MapperInv (runCalls fs calls) := by
  induction calls with
  | nil => intro fs _ h; exact h
  | cons v rest ih =>
    intro fs hf h
    exact ih ((getLocalPath fs v).2) ((getLocalPath_flatten fs v).trans hf)
      (mapperInv_step v hf h)

/-! ## Rewriter and filter helper lemmas -/

/-- A successful GetRelativePath leaves the target URL bound in the mapper. -/
theorem getRelativePath_ok_lookup {fs fs' : FileSystem} {a b r : String}
    (h : getRelativePath fs a b = (.ok r, fs')) :
    ∃ p, fs'.urlToPath.lookup b = some p := by
  unfold getRelativePath at h
  split at h
  · exact absurd h (by simp)
  · rename_i fromPath fs1 hA
    split at h
    · exact absurd h (by simp)
    · rename_i toPath fs2 hB
      split at h
      · exact absurd h (by simp)
      · rename_i rel hRel
        injection h with h4 h5
        rw [← h5]
        exact ⟨toPath, getLocalPath_ok_lookup hB⟩

theorem matchExtLoop_of_mem {ext e : String} {exts : List String}
    (he : e ∈ exts) (hm : ext = e ∨ ext = "." ++ e) : matchExtLoop ext exts = true := by
  induction exts with
  | nil => cases he
  | cons f rest ih =>
    rw [matchExtLoop]
    rcases List.mem_cons.mp he with rfl | hrest
    · rw [if_pos hm]
    · by_cases hf : ext = f ∨ ext = "." ++ f
      · rw [if_pos hf]
      · rw [if_neg hf]
        exact ih hrest

/-- Lines outside both rewrite classes pass through the per-line dispatch
unchanged, with the mapper state untouched. -/
theorem rewriteLineStep_passthrough (src : String) (fs : FileSystem) (line : String)
    (hcond : (goStartsWith line "#" = true ∧ containsURI line = false) ∨ line = "") :
    rewriteLineStep src fs line = some (line, fs) := by
  unfold rewriteLineStep
  rcases hcond with ⟨h1, h2⟩ | rfl
  · rw [if_pos h1, if_neg (by simp [h2])]
  · rw [if_neg (by decide), if_neg (by simp)]

/-- With a parseable source URL the tag-line loop never panics. -/
theorem rewriteTagLoop_ne_none {src : String} {base : GoURL}
    (h : parseGoURL src = some base) :
    ∀ (fuel : Nat) (fs : FileSystem) (cs : List Char),
      rewriteTagLoop src fuel fs cs ≠ none := by
  intro fuel
  induction fuel with
  | zero => intro fs cs; simp [rewriteTagLoop]
  | succ fuel ih =>
    intro fs cs
    rw [rewriteTagLoop]
    cases hidx : idxOfSubL uriMark.data cs with
    | none => simp
    | some uriStart =>
      simp only []
      cases hq : idxOfCharL (cs.drop (uriStart + 5)) '"' with
      | none => simp
      | some uriEnd =>
        simp only [h]
        cases hrel : getRelativePath fs src
            (resolveURL base (String.mk ((cs.drop (uriStart + 5)).take uriEnd))) with
        | mk res fs1 =>
          cases res with
          | error e => simpa using ih fs1 _
          | ok rel => simp

/-- With a parseable source URL the per-line rewrite dispatch never panics. -/
theorem rewriteLineStep_ne_none {src : String} {base : GoURL}
    (h : parseGoURL src = some base) (fs : FileSystem) (line : String) :
    rewriteLineStep src fs line ≠ none := by
  unfold rewriteLineStep
  by_cases h1 : goStartsWith line "#" = true
  · rw [if_pos h1]
    by_cases h2 : containsURI line = true
    · rw [if_pos h2]
      unfold rewriteTagLine
      cases hloop : rewriteTagLoop src (line.data.length + 1) fs line.data with
      | none => exact absurd hloop (rewriteTagLoop_ne_none h _ fs line.data)
      | some r => simp
    · rw [if_neg h2]; simp
  · rw [if_neg h1]
    by_cases h2 : line = ""
    · rw [if_neg (by simp [h2])]; simp
    · rw [if_pos h2]
      unfold rewriteSegmentLine
      rw [h]
      cases hrel : getRelativePath fs src (resolveURL base line) with
      | mk res fs1 =>
        cases res with
        | error e => simp [hrel]
        | ok rel => simp [hrel]

/-- With an unparseable source URL, a line with a complete URI attribute
panics inside the tag-line loop. -/
theorem rewriteTagLine_none {src line : String} (fs : FileSystem)
    (hsrc : parseGoURL src = none) (hcomp : hasCompleteURI line = true) :
    rewriteTagLine fs line src = none := by
  unfold hasCompleteURI at hcomp
  unfold rewriteTagLine
  rw [rewriteTagLoop]
  cases hidx : goIndexSub line uriMark with
  | none => rw [hidx] at hcomp; exact Bool.noConfusion hcomp
  | some i =>
    rw [hidx] at hcomp
    dsimp only at hcomp
    rw [show idxOfSubL uriMark.data line.data = some i from hidx]
    simp only []
    cases hq : idxOfCharL (line.data.drop (i + 5)) '"' with
    | none => rw [hq] at hcomp; exact Bool.noConfusion hcomp
    | some j => simp [hsrc]

/-- A non-triggering line goes through the dispatch without panicking,
whatever the source URL. -/
theorem rewriteLineStep_of_not_trigger {src line : String} (fs : FileSystem)
    (htrig : panicTrigger line = false) :
    ∃ r, rewriteLineStep src fs line = some r := by
  unfold panicTrigger at htrig
  rw [Bool.or_eq_false_iff, Bool.and_eq_false_iff, Bool.and_eq_false_iff] at htrig
  obtain ⟨ht1, ht2⟩ := htrig
  unfold rewriteLineStep
  by_cases h1 : goStartsWith line "#" = true
  · rw [if_pos h1]
    by_cases h2 : containsURI line = true
    · rw [if_pos h2]
      have hcomp : hasCompleteURI line = false := by
        rcases ht2 with ht2 | ht2
        · rw [h1] at ht2; exact Bool.noConfusion ht2
        · exact ht2
      unfold hasCompleteURI at hcomp
      unfold containsURI goContains at h2
      cases hidx : goIndexSub line uriMark with
      | none => rw [hidx] at h2; exact Bool.noConfusion h2
      | some i =>
        rw [hidx] at hcomp
        dsimp only at hcomp
        unfold rewriteTagLine
        rw [rewriteTagLoop]
        rw [show idxOfSubL uriMark.data line.data = some i from hidx]
        simp only []
        cases hq : idxOfCharL (line.data.drop (i + 5)) '"' with
        | none => simp
        | some j => rw [hq] at hcomp; exact Bool.noConfusion hcomp
    · rw [if_neg h2]; exact ⟨_, rfl⟩
  · rw [if_neg h1]
    have hempty : line = "" := by
      rcases ht1 with ht1 | ht1
      · rw [Bool.not_eq_false'] at ht1
        exact absurd ht1 h1
      · simpa using ht1
    rw [if_neg (by simp [hempty])]
    exact ⟨_, rfl⟩

/-! ## Claim theorems -/

/-- C1: the claim that the Visited-Set check and mark form one atomic
critical section fails on the code: isVisited and markVisited each take the
lock separately, so in the interleaving model two workers handed the same
not-yet-visited URL can both pass their isVisited check before either
markVisited runs, and the Fetcher then runs twice for that URL. -/
theorem c1_visited_check_mark_race :
    (runSched
        ⟨[⟨"https://example.com/seg1.ts", downloadURLProg⟩,
          ⟨"https://example.com/seg1.ts", downloadURLProg⟩], [], []⟩
        [0, 1, 0, 1, 0, 1]).fetched.count "https://example.com/seg1.ts" = 2 := by
  decide

/-- C2 counterexample: in hierarchical (non-flattened) mode GetLocalPath
performs no collision handling, and two distinct URLs sharing a URL path
(differing only in host) are assigned the identical local path. -/
theorem c2_hierarchical_collision :
    (getLocalPath (mkFileSystem "out" false) "https://a.com/x/seg.ts").1 =
        .ok "out/x/seg.ts" ∧
    (getLocalPath (getLocalPath (mkFileSystem "out" false) "https://a.com/x/seg.ts").2
        "https://b.com/x/seg.ts").1 = .ok "out/x/seg.ts" ∧
    ("https://a.com/x/seg.ts" : String) ≠ "https://b.com/x/seg.ts" := by
  decide

/-- C2 amended: in flattened mode the assigner never maps two distinct URLs
to one local path: a claimed path is resolved by appending an eight-character
hash slice before the extension and, if needed, an incrementing counter,
until a free path is found. -/
theorem c2_flatten_paths_distinct (dir : String) (calls : List String)
    (u₁ u₂ p₁ p₂ : String) (hne : u₁ ≠ u₂)
    (h₁ : (runCalls (mkFileSystem dir true) calls).urlToPath.lookup u₁ = some p₁)
    (h₂ : (runCalls (mkFileSystem dir true) calls).urlToPath.lookup u₂ = some p₂) :
    p₁ ≠ p₂ := by
  obtain ⟨_, hnodup⟩ := mapperInv_runCalls calls (mkFileSystem dir true) rfl
    ⟨fun e he => absurd he (by simp [mkFileSystem]), by simp [mkFileSystem]⟩
  intro hpe
  have hpair := List.inj_on_of_nodup_map hnodup (lookup_mem h₁) (lookup_mem h₂)
    (show (u₁, p₁).2 = (u₂, p₂).2 from hpe)
  exact hne (congrArg Prod.fst hpair)

/-- C2 witness: two URLs colliding on the flattened basename receive
distinct paths, the second one hash-suffixed. -/
theorem c2_flatten_paths_distinct_witness :
    ("out/file.ts" : String) ≠ "out/file_00000000.ts" :=
  c2_flatten_paths_distinct "out" ["https://a.com/x/file.ts", "https://b.com/y/file.ts"]
    "https://a.com/x/file.ts" "https://b.com/y/file.ts" "out/file.ts" "out/file_00000000.ts"
    (by decide) (by decide) (by decide)

/-- C3 counterexample: rewriting a playlist whose only reference was
filtered out of the crawl (its extension is excluded, so it was never
assigned a path) assigns it a fresh path through GetRelativePath, rewrites
its line, and grows the mapper state by the skipped URL. -/
theorem c3_rewrite_assigns_skipped_url :
    shouldDownload ⟨[], ["bin"]⟩ "https://e.com/x.bin" = false ∧
    ((getLocalPath (mkFileSystem "out" false) "https://e.com/p.m3u8").2).urlToPath.lookup
        "https://e.com/x.bin" = none ∧
    (rewriteM3U8URLs "seg/../x.bin" "https://e.com/p.m3u8"
        ((getLocalPath (mkFileSystem "out" false) "https://e.com/p.m3u8").2)).map
        Prod.fst = some "x.bin\n" ∧
    (rewriteM3U8URLs "seg/../x.bin" "https://e.com/p.m3u8"
        ((getLocalPath (mkFileSystem "out" false) "https://e.com/p.m3u8").2)).map
        (fun r => r.2.urlToPath.lookup "https://e.com/x.bin") =
      some (some "out/x.bin") := by
  decide

/-- C3 amended: a bare reference line whose resolution and mapping succeed
is rewritten to the relative path and the referenced URL is afterwards bound
in the mapper state — the Rewriter does trigger fresh path assignments, also
for URLs the crawl skipped; a reference keeps its original text only when
its path computation fails. -/
theorem c3_rewrite_assigns (fs fs₁ : FileSystem) (src line rel : String)
    (base : GoURL) (hsrc : parseGoURL src = some base)
    (hmap : getRelativePath fs src (resolveURL base line) = (.ok rel, fs₁)) :
    rewriteSegmentLine fs line src = some (rel, fs₁) ∧
      ∃ p, fs₁.urlToPath.lookup (resolveURL base line) = some p := by
  constructor
  · unfold rewriteSegmentLine
    rw [hsrc]
    dsimp only
    rw [hmap]
  · exact getRelativePath_ok_lookup hmap

/-- C3 witness: the amended theorem at the counterexample input. -/
theorem c3_rewrite_assigns_witness :
    rewriteSegmentLine ((getLocalPath (mkFileSystem "out" false) "https://e.com/p.m3u8").2)
        "seg/../x.bin" "https://e.com/p.m3u8" =
      some ("x.bin",
        (getRelativePath ((getLocalPath (mkFileSystem "out" false) "https://e.com/p.m3u8").2)
          "https://e.com/p.m3u8" "https://e.com/x.bin").2) ∧
    ∃ p, ((getRelativePath ((getLocalPath (mkFileSystem "out" false) "https://e.com/p.m3u8").2)
        "https://e.com/p.m3u8" "https://e.com/x.bin").2).urlToPath.lookup
          "https://e.com/x.bin" = some p :=
  c3_rewrite_assigns _ _ "https://e.com/p.m3u8" "seg/../x.bin" "x.bin"
    ⟨"https", "", "e.com", "/p.m3u8", ""⟩ (by decide) (by decide)

/-- C4: the claim that a tag line whose URI cannot be mapped is emitted
untouched fails on the code: when GetRelativePath errors (here because the
playlist's own local path escapes the output directory and filepath.Rel
refuses it), the loop drops everything before the closing quote and emits
the truncated remainder — the comment in the code says "skip this URL" but
the code truncates the line. -/
theorem c4_tagline_truncated_on_error :
    (rewriteM3U8URLs "#EXT-X-KEY:METHOD=AES-128,URI=\"seg.ts\""
        "https://example.com/../../p.m3u8" (mkFileSystem "out" false)).map Prod.fst =
      some "\"\n" := by
  decide

/-- C5 counterexample: a reference the parser classifies as a nested
playlist is dropped by the extension filter when the m3u8 extension is
excluded, so the nested playlist (and its whole subtree) is never
traversed. -/
theorem c5_nested_playlist_filtered :
    (parseM3U8 "#EXT-X-STREAM-INF:BANDWIDTH=1280000\nhigh.m3u8\n"
        ⟨"https", "", "example.com", "/master.m3u8", ""⟩).isM3U8.lookup
        "https://example.com/high.m3u8" = some true ∧
    (parseM3U8 "#EXT-X-STREAM-INF:BANDWIDTH=1280000\nhigh.m3u8\n"
        ⟨"https", "", "example.com", "/master.m3u8", ""⟩).urls =
      ["https://example.com/high.m3u8"] ∧
    filterURLs ⟨[], ["m3u8"]⟩ ["https://example.com/high.m3u8"] = [] := by
  decide

/-- C5 amended: the include/exclude extension filter applies to every
discovered reference uniformly — shouldDownload consults only the URL's
normalized extension, so a reference whose extension matches the exclude
list is dropped whether or not it is a nested playlist. -/
theorem c5_filter_never_spares_playlists (cfg : DlConfig) (u e : String)
    (he : e ∈ cfg.excludeExts) (hm : extOfURL u = e ∨ extOfURL u = "." ++ e) :
    shouldDownload cfg u = false := by
  unfold shouldDownload
  rw [if_pos (matchExtLoop_of_mem he hm)]

/-- C5 witness: an excluded playlist extension drops the URL even though the
include list names it too. -/
theorem c5_filter_never_spares_playlists_witness :
    shouldDownload ⟨["m3u8"], ["m3u8"]⟩ "https://example.com/high.m3u8" = false :=
  c5_filter_never_spares_playlists ⟨["m3u8"], ["m3u8"]⟩ "https://example.com/high.m3u8"
    "m3u8" (by decide) (by decide)

/-- C6: the Resolver maps the four reference shapes as specified, and a
reference url.Parse rejects is resolved as a literal relative path by the
directory-join rule instead of failing. -/
theorem c6_resolver_shapes (b : GoURL)
    (hb : parseGoURL "https://example.com/path/playlist.m3u8" = some b) :
    resolveURL b "segment.ts" = "https://example.com/path/segment.ts" ∧
    resolveURL b "/absolute/segment.ts" = "https://example.com/absolute/segment.ts" ∧
    resolveURL b "https://other.com/segment.ts" = "https://other.com/segment.ts" ∧
    resolveURL b "../segment.ts" = "https://example.com/segment.ts" ∧
    ∀ ref, parseGoURL ref = none → resolveURL b ref = resolveRelativePath b ref := by
  have hb2 : b = ⟨"https", "", "example.com", "/path/playlist.m3u8", ""⟩ :=
    Option.some.inj ((by decide :
      parseGoURL "https://example.com/path/playlist.m3u8" =
        some ⟨"https", "", "example.com", "/path/playlist.m3u8", ""⟩).symm.trans hb).symm
  subst hb2
  refine ⟨by decide, by decide, by decide, by decide, ?_⟩
  intro ref href
  unfold resolveURL
  rw [href]

/-- C6 witness: the Resolver at the specified base, with the malformed
reference clause instanced at a leading-colon reference (Go's "missing
protocol scheme" parse error). -/
theorem c6_resolver_shapes_witness :
    resolveURL ⟨"https", "", "example.com", "/path/playlist.m3u8", ""⟩ "segment.ts" =
        "https://example.com/path/segment.ts" ∧
    resolveURL ⟨"https", "", "example.com", "/path/playlist.m3u8", ""⟩ ":x" =
      resolveRelativePath ⟨"https", "", "example.com", "/path/playlist.m3u8", ""⟩ ":x" :=
  ⟨(c6_resolver_shapes _ (by decide)).1,
   (c6_resolver_shapes _ (by decide)).2.2.2.2 ":x" (by decide)⟩

/-- C7: path assignment is idempotent and first-writer-wins: once a call
returns a path for a URL, any later call — with any other calls interleaved
in between — returns exactly the cached path and leaves the mapper state
unchanged. -/
theorem c7_assign_idempotent (fs fs₁ : FileSystem) (u p : String)
    (h : getLocalPath fs u = (.ok p, fs₁)) (calls : List String) :
    getLocalPath (runCalls fs₁ calls) u = (.ok p, runCalls fs₁ calls) :=
  getLocalPath_cached
    (runCalls_lookup_persists calls fs₁ (getLocalPath_ok_lookup h))

/-- C7 witness: the first assignment survives an interleaved call to a
colliding URL and a repeated call to the same URL. -/
theorem c7_assign_idempotent_witness :
    getLocalPath
        (runCalls ((getLocalPath (mkFileSystem "out" true) "https://a.com/x/file.ts").2)
          ["https://b.com/y/file.ts", "https://a.com/x/file.ts"])
        "https://a.com/x/file.ts" =
      (.ok "out/file.ts",
        runCalls ((getLocalPath (mkFileSystem "out" true) "https://a.com/x/file.ts").2)
          ["https://b.com/y/file.ts", "https://a.com/x/file.ts"]) :=
  c7_assign_idempotent (mkFileSystem "out" true) _ "https://a.com/x/file.ts" "out/file.ts"
    (by decide) ["https://b.com/y/file.ts", "https://a.com/x/file.ts"]

/-- C8: the parser appends, for every non-comment non-blank (trimmed) line,
its resolved absolute URL to the reference list, and records it as a nested
playlist exactly when the pre-resolution line ends in ".m3u8" or contains
".m3u8?"; parsing a playlist is the fold of this per-line step over the
scanned lines. -/
theorem c8_parse_segment_line (base : GoURL) (st : M3U8Doc) (raw : String)
    (h1 : trimSpace raw ≠ "") (h2 : goStartsWith (trimSpace raw) "#" = false) :
    parseLine base st raw =
      { urls := st.urls ++ [resolveURL base (trimSpace raw)],
        isM3U8 := (resolveURL base (trimSpace raw),
          goEndsWith (trimSpace raw) ".m3u8" || goContains (trimSpace raw) ".m3u8?") ::
            st.isM3U8 } ∧
    ∀ content b, parseM3U8 content b = (goLines content).foldl (parseLine b) ⟨[], []⟩ := by
  constructor
  · have hc1 : ¬(trimSpace raw = "" ∨
        (goStartsWith (trimSpace raw) "#" = true ∧ containsURL (trimSpace raw) = false)) := by
      rintro (hc | ⟨hc, _⟩)
      · exact h1 hc
      · rw [h2] at hc
        exact Bool.noConfusion hc
    unfold parseLine
    rw [if_neg hc1, if_neg (by simp [h2])]
  · intro content b
    rfl

/-- C8 witness: a master-playlist entry line with surrounding whitespace. -/
theorem c8_parse_segment_line_witness :
    parseLine ⟨"https", "", "example.com", "/master.m3u8", ""⟩ ⟨[], []⟩ " high.m3u8 " =
      { urls := ["https://example.com/high.m3u8"],
        isM3U8 := [("https://example.com/high.m3u8", true)] } ∧
    ∀ content b, parseM3U8 content b = (goLines content).foldl (parseLine b) ⟨[], []⟩ :=
  c8_parse_segment_line ⟨"https", "", "example.com", "/master.m3u8", ""⟩ ⟨[], []⟩
    " high.m3u8 " (by decide) (by decide)

/-- C9 counterexample: the rewriter classifies tag lines by the quoted URI
marker alone, not by the parser's four-tag set (the spec's definition of a
reference-bearing tag): a session-data tag line is not reference-bearing —
the repository's own containsURL rejects it — and is not a bare reference
line, yet the rewriter rewrites its URI attribute instead of passing the
line through unchanged. -/
theorem c9_session_data_line_changed :
    containsURL "#EXT-X-SESSION-DATA:URI=\"seg/../a.ts\"" = false ∧
    goStartsWith "#EXT-X-SESSION-DATA:URI=\"seg/../a.ts\"" "#" = true ∧
    (rewriteM3U8URLs "#EXT-X-SESSION-DATA:URI=\"seg/../a.ts\"" "https://e.com/p.m3u8"
        (mkFileSystem "out" false)).map Prod.fst =
      some "#EXT-X-SESSION-DATA:URI=\"a.ts\"\n" := by
  decide

/-- C9 amended: the rewriter emits exactly one output line per input line,
and every line that is neither a tag line containing a quoted URI attribute
(the rewriter's own classification, wider than the parser's four-tag set)
nor a bare reference line (non-blank, non-comment) — blank lines included —
appears in the output byte-for-byte unchanged. -/
theorem c9_other_lines_unchanged (src : String) :
    ∀ (lines out : List String) (fs fs' : FileSystem),
      rewriteLinesGo src fs lines = some (out, fs') →
      out.length = lines.length ∧
        List.Forall₂
          (fun a b =>
            ((goStartsWith a "#" = true ∧ containsURI a = false) ∨ a = "") → b = a)
          lines out := by
  intro lines
  induction lines with
  | nil =>
    intro out fs fs' h
    unfold rewriteLinesGo at h
    injection h with h4
    injection h4 with h5 h6
    rw [← h5]
    exact ⟨rfl, List.Forall₂.nil⟩
  | cons line rest ih =>
    intro out fs fs' h
    unfold rewriteLinesGo at h
    split at h
    · exact absurd h (by simp)
    · rename_i l1 fs1 hstep
      split at h
      · exact absurd h (by simp)
      · rename_i ls fs2 hrec
        injection h with h4
        injection h4 with h5 h6
        rw [← h5]
        obtain ⟨hlen, hfa⟩ := ih ls fs1 fs2 hrec
        refine ⟨by simpa using hlen, List.Forall₂.cons (fun hcond => ?_) hfa⟩
        rw [rewriteLineStep_passthrough src fs line hcond] at hstep
        injection hstep with h7
        exact (congrArg Prod.fst h7).symm

/-- C9 witness: a playlist of passthrough lines (header, blank, end tag)
is emitted unchanged, one line per line. -/
theorem c9_other_lines_unchanged_witness :
    (3 : Nat) = 3 ∧
      List.Forall₂
        (fun a b =>
          ((goStartsWith a "#" = true ∧ containsURI a = false) ∨ a = "") → b = a)
        ["#EXTM3U", "", "#EXT-X-ENDLIST"] ["#EXTM3U", "", "#EXT-X-ENDLIST"] :=
  c9_other_lines_unchanged "https://example.com/p.m3u8"
    ["#EXTM3U", "", "#EXT-X-ENDLIST"] ["#EXTM3U", "", "#EXT-X-ENDLIST"]
    (mkFileSystem "out" false) (mkFileSystem "out" false) (by decide)

/-- C10: with a source URL that url.Parse accepts (the precondition the
orchestrator establishes by parsing it before rewriting), RewriteM3U8URLs
never panics; with a source URL that url.Parse rejects, any content holding
a bare reference line or a tag line with a complete quoted URI attribute
makes it panic through mustParseURL rather than return an error. -/
theorem c10_mustparse_panic :
    (∀ (src content : String) (fs : FileSystem) (base : GoURL),
        parseGoURL src = some base →
        ∃ r, rewriteM3U8URLs content src fs = some r) ∧
    (∀ (src content : String) (fs : FileSystem),
        parseGoURL src = none →
        (∃ l ∈ goLines content, panicTrigger l = true) →
        rewriteM3U8URLs content src fs = none) := by
  constructor
  · intro src content fs base hsrc
    unfold rewriteM3U8URLs
    suffices hl : ∀ (lines : List String) (fs : FileSystem),
        ∃ r, rewriteLinesGo src fs lines = some r by
      obtain ⟨r, hr⟩ := hl (goLines content) fs
      exact ⟨_, by rw [hr]; rfl⟩
    intro lines
    induction lines with
    | nil => intro fs; exact ⟨_, rfl⟩
    | cons line rest ihl =>
      intro fs
      unfold rewriteLinesGo
      cases hstep : rewriteLineStep src fs line with
      | none => exact absurd hstep (rewriteLineStep_ne_none hsrc fs line)
      | some r1 =>
        obtain ⟨l1, fs1⟩ := r1
        obtain ⟨r2, hr2⟩ := ihl fs1
        dsimp only
        rw [hr2]
        exact ⟨_, rfl⟩
  · intro src content fs hsrc htrig
    unfold rewriteM3U8URLs
    suffices hl : ∀ (lines : List String) (fs : FileSystem),
        (∃ l ∈ lines, panicTrigger l = true) →
        rewriteLinesGo src fs lines = none by
      rw [hl (goLines content) fs htrig]
      rfl
    intro lines
    induction lines with
    | nil =>
      intro fs h
      obtain ⟨l, hl, _⟩ := h
      cases hl
    | cons line rest ihl =>
      intro fs h
      unfold rewriteLinesGo
      by_cases hline : panicTrigger line = true
      · have hnone : rewriteLineStep src fs line = none := by
          unfold panicTrigger at hline
          rw [Bool.or_eq_true_iff, Bool.and_eq_true_iff, Bool.and_eq_true_iff] at hline
          unfold rewriteLineStep
          rcases hline with ⟨hb, hne⟩ | ⟨hb, hcomp⟩
          · have hsw : goStartsWith line "#" = false := by simpa using hb
            rw [if_neg (by simp [hsw]), if_pos (by simpa using hne)]
            unfold rewriteSegmentLine
            rw [hsrc]
          · rw [if_pos hb,
              if_pos (show containsURI line = true by
                unfold hasCompleteURI at hcomp
                unfold containsURI goContains
                cases hidx : goIndexSub line uriMark with
                | none => rw [hidx] at hcomp; exact Bool.noConfusion hcomp
                | some i => rfl)]
            exact rewriteTagLine_none fs hsrc hcomp
        rw [hnone]
      · have hfalse : panicTrigger line = false := by simpa using hline
        obtain ⟨r1, hstep⟩ := rewriteLineStep_of_not_trigger fs hfalse
        obtain ⟨l1, fs1⟩ := r1
        rw [hstep]
        dsimp only
        have hrest : ∃ l ∈ rest, panicTrigger l = true := by
          obtain ⟨l, hl, hp⟩ := h
          rcases List.mem_cons.mp hl with rfl | hmem
          · exact absurd hp hline
          · exact ⟨l, hmem, hp⟩
        rw [ihl fs1 hrest]

/-- C10 witness: a parseable source URL rewrites a one-segment playlist
without panicking; the unparseable source URL ":bad" panics on the same
content. -/
theorem c10_mustparse_panic_witness :
    (∃ r, rewriteM3U8URLs "seg.ts" "https://e.com/p.m3u8" (mkFileSystem "out" false) =
        some r) ∧
    rewriteM3U8URLs "seg.ts" ":bad" (mkFileSystem "out" false) = none :=
  ⟨c10_mustparse_panic.1 "https://e.com/p.m3u8" "seg.ts" (mkFileSystem "out" false)
      ⟨"https", "", "e.com", "/p.m3u8", ""⟩ (by decide),
   c10_mustparse_panic.2 ":bad" "seg.ts" (mkFileSystem "out" false) (by decide)
      ⟨"seg.ts", by decide, by decide⟩⟩

end M3U8
